import Mathlib

/-!
Shallow embedding of the constraint-checking logic of the
Quantum-Puzzle-Solver repository.

Sources embedded here:
* `app_enhanced_real_time.py`: `check_n_queens_validity`,
  `generate_intermediate_states` (the hard-coded known solutions),
  `check_graph_coloring_validity`, `find_valid_coloring`, and the static
  `graphs` table of the graph-coloring page.
* `quantum_solver.py`: `NQueensQuantumSolver.verify_solution`,
  `get_solution_coordinates`, `create_simplified_oracle`,
  `create_diffuser`, the gate sequence assembled by `solve`, the
  `MockSampler` fallback and the result post-processing in `solve`.

Boards are modelled as functions `Nat → Nat → Nat` holding the cell
values (the Python code stores 0/1 integers in an `n × n` numpy array);
bitstrings are `List Char` (Python iterates the characters of the
string); quantum circuits are modelled as the list of gates appended to
them, since the claims under study only concern which gates are present.
-/

namespace QPS

/-! ### Boards and the app-side validity checker -/

/-- Board built by `generate_intermediate_states` /
`create_board_visualization`: a zero matrix with a 1 written at each
listed queen coordinate. -/
def boardOfCoords (coords : List (Nat × Nat)) : Nat → Nat → Nat :=
  fun i j => if (i, j) ∈ coords then 1 else 0

/-- The queen-collection loop of `check_n_queens_validity`
(app_enhanced_real_time.py lines 1298-1302): scan rows `i < n`, columns
`j < n` in order and collect the coordinates of the cells holding 1. -/
def queenList (board : Nat → Nat → Nat) (n : Nat) : List (Nat × Nat) :=
  (List.range n).flatMap fun i =>
    (List.range n).filterMap fun j =>
      if board i j = 1 then some (i, j) else none

/-- The pairwise conflict test of `check_n_queens_validity` (lines
1309-1322): same row, same column, or equal absolute coordinate deltas. -/
def queensConflict (p q : Nat × Nat) : Bool :=
  decide (p.1 = q.1) || decide (p.2 = q.2) ||
    decide (((p.1 : Int) - (q.1 : Int)).natAbs = ((p.2 : Int) - (q.2 : Int)).natAbs)

/-- The double loop `for i ... for j in range(i+1, ...)` of
`check_n_queens_validity`: every later queen is compared with every
earlier one, returning `false` on the first conflict. -/
def pairwiseOk : List (Nat × Nat) → Bool
  | [] => true
  | p :: rest => rest.all (fun q => !queensConflict p q) && pairwiseOk rest

/-- `check_n_queens_validity(board, n)` (app_enhanced_real_time.py lines
1294-1324): collect the queens, fail if their number differs from `n`,
then fail iff some unordered pair conflicts. -/
def check_n_queens_validity (board : Nat → Nat → Nat) (n : Nat) : Bool :=
  let queens := queenList board n
  if queens.length ≠ n then false else pairwiseOk queens

/-! ### quantum_solver.py: bitstrings, verify_solution, decoding -/

/-- Board built from a bitstring by `verify_solution` /
`create_visualization`: `board[i // n][i % n] = 1` for every index `i`
whose character is '1'.  For a string of length `n * n` the cell `(r, c)`
ends up holding 1 exactly when character `r * n + c` is '1'. -/
def boardOfBits (s : List Char) (n : Nat) : Nat → Nat → Nat :=
  fun r c => if s.getD (r * n + c) '0' = '1' then 1 else 0

/-- Row sum `np.sum(board[row, :])` over the `n` columns. -/
def rowSum (board : Nat → Nat → Nat) (n r : Nat) : Nat :=
  ∑ c ∈ Finset.range n, board r c

/-- Column sum `np.sum(board[:, col])` over the `n` rows. -/
def colSum (board : Nat → Nat → Nat) (n c : Nat) : Nat :=
  ∑ r ∈ Finset.range n, board r c

/-- The `while 0 <= ni < n and 0 <= nj < n` diagonal walk of
`verify_solution` (quantum_solver.py lines 359-366): starting from
`(ni, nj)` and stepping by `(di, dj)`, report whether a queen is met
before leaving the board.  The walk visits at most `n` in-bounds cells,
so structural fuel `n` reproduces the `while` loop exactly. -/
def rayHit (board : Nat → Nat → Nat) (n : Nat) :
    Nat → Int → Int → Int → Int → Bool
  | 0, _, _, _, _ => false
  | fuel + 1, ni, nj, di, dj =>
    if 0 ≤ ni ∧ ni < (n : Int) ∧ 0 ≤ nj ∧ nj < (n : Int) then
      (board ni.toNat nj.toNat = 1) || rayHit board n fuel (ni + di) (nj + dj) di dj
    else false

/-- The diagonal-constraint loop of `verify_solution` (lines 355-366):
for every occupied cell and each of the four diagonal directions
`di, dj ∈ {-1, 1}`, no other queen may lie on the ray. -/
def diagClear (board : Nat → Nat → Nat) (n : Nat) : Bool :=
  (List.range n).all fun i =>
    (List.range n).all fun j =>
      if board i j = 1 then
        ([(-1, -1), (-1, 1), (1, -1), (1, 1)] : List (Int × Int)).all fun d =>
          !rayHit board n n ((i : Int) + d.1) ((j : Int) + d.2) d.1 d.2
      else true

/-- `NQueensQuantumSolver.verify_solution(bitstring)` (quantum_solver.py
lines 326-368): build the board from the bitstring, then require every
row sum ≤ 1, every column sum ≤ 1, and all diagonal rays clear.  The
function performs no check on the total number of queens. -/
def verify_solution (s : List Char) (n : Nat) : Bool :=
  ((List.range n).all fun r => decide (rowSum (boardOfBits s n) n r ≤ 1)) &&
  ((List.range n).all fun c => decide (colSum (boardOfBits s n) n c ≤ 1)) &&
  diagClear (boardOfBits s n) n

/-- `NQueensQuantumSolver.get_solution_coordinates(bitstring)`
(quantum_solver.py lines 370-386): for each index `i` whose character is
'1' append `(i // n, i % n)`. -/
def get_solution_coordinates (s : List Char) (n : Nat) : List (Nat × Nat) :=
  (List.range s.length).filterMap fun i =>
    if s.getD i '0' = '1' then some (i / n, i % n) else none

/-- The hard-coded `solution_state = "0100001000010010"` of
`create_simplified_oracle` (quantum_solver.py line 223), as its list of
characters. -/
def solution_state_4 : List Char :=
  ['0', '1', '0', '0', '0', '0', '1', '0', '0', '0', '0', '1', '0', '0', '1', '0']

/-- The queen coordinates that the comment on quantum_solver.py line 222
documents as the known 4-queens solution: (0,1), (1,3), (2,0), (3,2). -/
def documented_solution_4 : List (Nat × Nat) := [(0, 1), (1, 3), (2, 0), (3, 2)]

/-! ### Hard-coded known solutions of generate_intermediate_states -/

/-- Known 4-queens solution of `generate_intermediate_states`
(app_enhanced_real_time.py line 1343). -/
def sol4 : List (Nat × Nat) := [(1, 0), (3, 1), (0, 2), (2, 3)]

/-- Known 5-queens solution (line 1346). -/
def sol5 : List (Nat × Nat) := [(0, 0), (2, 1), (4, 2), (1, 3), (3, 4)]

/-- Known 6-queens solution (line 1349). -/
def sol6 : List (Nat × Nat) := [(1, 0), (3, 1), (5, 2), (0, 3), (2, 4), (4, 5)]

/-! ### Spec-side (declarative) notions for the N-Queens validator -/

/-- Spec-side attack relation between two cells: same row, same column,
or equal absolute row and column deltas (diagonal attack). -/
def attacks (p q : Nat × Nat) : Prop :=
  p.1 = q.1 ∨ p.2 = q.2 ∨
    ((p.1 : Int) - (q.1 : Int)).natAbs = ((p.2 : Int) - (q.2 : Int)).natAbs

/-- Spec-side set of 1-cells of the `n × n` grid. -/
def specOnes (board : Nat → Nat → Nat) (n : Nat) : Finset (Nat × Nat) :=
  (Finset.range n ×ˢ Finset.range n).filter fun p => board p.1 p.2 = 1

/-- Finite-board wrapper so that a quantification over all `n × n`
boards of 0/1 values is decidable: the function `f` gives the queen
cells, all cells outside the board are 0. -/
def boardOfFin {n : Nat} (f : Fin n → Fin n → Bool) : Nat → Nat → Nat :=
  fun i j => if h : i < n ∧ j < n then (if f ⟨i, h.1⟩ ⟨j, h.2⟩ then 1 else 0) else 0

/-- Number of queens placed by a finite board function. -/
def finBoardCount {n : Nat} (f : Fin n → Fin n → Bool) : Nat :=
  (Finset.univ.filter fun p : Fin n × Fin n => f p.1 p.2 = true).card

/-! ### Graph coloring (app_enhanced_real_time.py) -/

/-- One entry of the static `graphs` dict of the graph-coloring page
(app_enhanced_real_time.py lines 2185-2196): a name, a vertex count, an
edge list and the chromatic number the module records for it. -/
structure GraphData where
  name : String
  vertices : Nat
  edges : List (Nat × Nat)
  chromatic : Nat
deriving DecidableEq

/-- The per-edge conflict test of `check_graph_coloring_validity`
(lines 2450-2454): both endpoints colored, with equal colors that are
non-negative. -/
def edgeConflict (coloring : Nat → Option Int) (e : Nat × Nat) : Bool :=
  match coloring e.1, coloring e.2 with
  | some c1, some c2 => decide (c1 = c2) && decide (0 ≤ c1)
  | _, _ => false

/-- `check_graph_coloring_validity(graph, coloring)`
(app_enhanced_real_time.py lines 2448-2455): scan the edge list and fail
iff some edge conflicts.  The Python coloring dict is modelled as a
partial map `Nat → Option Int` (some call sites store -1 for
"uncolored", hence integer colors). -/
def check_graph_coloring_validity (graph : GraphData) (coloring : Nat → Option Int) : Bool :=
  graph.edges.all fun e => !edgeConflict coloring e

/-- The neighbor-color scan of `find_valid_coloring`
(lines 2480-2486): colors of already-colored neighbors of `v`. -/
def neighbor_used_colors (edges : List (Nat × Nat)) (coloring : List (Nat × Nat))
    (v : Nat) : List Nat :=
  edges.filterMap fun e =>
    if e.1 = v then List.lookup e.2 coloring
    else if e.2 = v then List.lookup e.1 coloring
    else none

/-- `find_valid_coloring(vertices, edges, max_colors)`
(app_enhanced_real_time.py lines 2476-2496): scan vertices in increasing
order, give each the smallest color of `range(max_colors)` not used by an
already-colored neighbor, and return `None` (the `for ... else` branch)
as soon as some vertex has no legal color.  The growing Python dict is
modelled as an association list in insertion order. -/
def find_valid_coloring (vertices : Nat) (edges : List (Nat × Nat))
    (max_colors : Nat) : Option (List (Nat × Nat)) :=
  (List.range vertices).foldl
    (fun acc v =>
      acc.bind fun coloring =>
        ((List.range max_colors).find? fun color =>
            !(neighbor_used_colors edges coloring v).contains color).map
          fun color => coloring ++ [(v, color)])
    (some [])

/-- View a greedy coloring (an association list of naturals) as the
partial integer-valued coloring map taken by the validity checker. -/
def colorMapOf (l : List (Nat × Nat)) : Nat → Option Int :=
  fun v => (List.lookup v l).map fun c => (c : Int)

/-- `"Triangle (K3)"` (line 2186). -/
def triangleK3 : GraphData := ⟨"Triangle (K3)", 3, [(0, 1), (1, 2), (2, 0)], 3⟩

/-- `"Square Cycle"` (line 2187). -/
def squareCycle : GraphData := ⟨"Square Cycle", 4, [(0, 1), (1, 2), (2, 3), (3, 0)], 2⟩

/-- `"Pentagon Cycle"` (line 2188). -/
def pentagonCycle : GraphData :=
  ⟨"Pentagon Cycle", 5, [(0, 1), (1, 2), (2, 3), (3, 4), (4, 0)], 3⟩

/-- `"Hexagon Cycle"` (line 2189). -/
def hexagonCycle : GraphData :=
  ⟨"Hexagon Cycle", 6, [(0, 1), (1, 2), (2, 3), (3, 4), (4, 5), (5, 0)], 2⟩

/-- `"Complete K4"` (line 2190). -/
def completeK4 : GraphData :=
  ⟨"Complete K4", 4, [(0, 1), (0, 2), (0, 3), (1, 2), (1, 3), (2, 3)], 4⟩

/-- `"Complete K5"` (line 2191), whose edge list is the comprehension
`[(i,j) for i in range(5) for j in range(i+1,5)]`. -/
def completeK5 : GraphData :=
  ⟨"Complete K5", 5,
    (List.range 5).flatMap fun i => (List.range' (i + 1) (5 - (i + 1))).map fun j => (i, j),
    5⟩

/-- `"Bipartite K2,3"` (line 2192). -/
def bipartiteK23 : GraphData :=
  ⟨"Bipartite K2,3", 5, [(0, 2), (0, 3), (0, 4), (1, 2), (1, 3), (1, 4)], 2⟩

/-- `"Wheel W4"` (line 2193): hub 0 joined to the 4-cycle 1-2-3-4.  The
module records chromatic number 4 for it. -/
def wheelW4 : GraphData :=
  ⟨"Wheel W4", 5, [(0, 1), (1, 2), (2, 3), (3, 4), (4, 1), (0, 2), (0, 3), (0, 4)], 4⟩

/-- `"Star S5"` (line 2194). -/
def starS5 : GraphData :=
  ⟨"Star S5", 6, [(0, 1), (0, 2), (0, 3), (0, 4), (0, 5)], 2⟩

/-- `"Complex Mixed"` (line 2195): the 6-cycle plus chords (0,3) and
(1,4).  The module records chromatic number 3 for it. -/
def complexMixed : GraphData :=
  ⟨"Complex Mixed", 6, [(0, 1), (1, 2), (2, 3), (3, 4), (4, 5), (5, 0), (0, 3), (1, 4)], 3⟩

/-- The full `graphs` table (lines 2185-2196), in source order. -/
def graphs : List GraphData :=
  [triangleK3, squareCycle, pentagonCycle, hexagonCycle, completeK4,
    completeK5, bipartiteK23, wheelW4, starS5, complexMixed]

/-! ### MockSampler and the result post-processing of solve() -/

/-- Counts reported by the MockSampler fallback (quantum_solver.py lines
33-66): `job.result()[0].data.meas.get_counts()` is always the fixed
dict `{'0000': shots}`, whatever circuits were submitted.  Keys are
modelled as character lists. -/
def mock_get_counts {α : Type} (circuits : List α) (shots : Nat) : List (List Char × Nat) :=
  [(['0', '0', '0', '0'], shots)]

/-- Python `int(bitstring, 2)` on a string of '0'/'1' characters. -/
def int_of_binary (s : List Char) : Nat :=
  s.foldl (fun acc c => 2 * acc + (if c = '1' then 1 else 0)) 0

/-- Python `int()` on an exact rational: truncation toward zero. -/
def py_int (q : ℚ) : Int := if 0 ≤ q then ⌊q⌋ else ⌈q⌉

/-- The counts → quasi-distribution step of `solve` (quantum_solver.py
lines 295-296): `{int(bitstring, 2): count / total_shots}` where
`total_shots` is the sum of all reported counts. -/
def quasi_dists (counts : List (List Char × Nat)) : List (Nat × ℚ) :=
  counts.map fun kv => (int_of_binary kv.1, (kv.2 : ℚ) / (((counts.map (·.2)).sum : Nat) : ℚ))

/-- The quasi-distribution → counts step of `solve` (lines 304-306):
`counts[str(bitstring)] = int(probability * shots)`. -/
def counts_of_quasi (q : List (Nat × ℚ)) (shots : Nat) : List (List Char × Int) :=
  q.map fun kp => (Nat.toDigits 10 kp.1, py_int (kp.2 * (shots : ℚ)))

/-- The most-probable-result scan of `solve` (lines 308-315): start from
`'0' * num_qubits` with `max_count = 0` and keep the key of the first
strictly larger count. -/
def most_probable_of (counts : List (List Char × Int)) (numQubits : Nat) : List Char :=
  (counts.foldl (fun acc kv => if kv.2 > acc.2 then kv else acc)
    (List.replicate numQubits '0', 0)).1

/-! ### Circuits as gate lists (quantum_solver.py) -/

/-- The gates used by `create_simplified_oracle`, `create_diffuser` and
`solve`: Pauli-X, Hadamard, and the multi-controlled X. -/
inductive Gate where
  | x (q : Nat)
  | h (q : Nat)
  | mcx (controls : List Nat) (target : Nat)
deriving DecidableEq

/-- The comprehension `[i for i, bit in enumerate(s) if bit == '1']`
used on quantum_solver.py lines 224 and 228. -/
def ones_indices (s : List Char) : List Nat :=
  (List.range s.length).filter fun i => s.getD i '0' = '1'

/-- `NQueensQuantumSolver.create_simplified_oracle` (quantum_solver.py
lines 210-230), as the list of gates appended to the fresh
`QuantumCircuit(self.num_qubits)`: for `n = 4` an X layer on the '1'
positions of the hard-coded bitstring, H on the last qubit, an MCX
controlled on all other qubits, H, and the X layer again.  The `n == 3`
branch is `pass` and every other size falls through both branches, so
the returned circuit carries no gates at all. -/
def create_simplified_oracle (n : Nat) : List Gate :=
  if n = 4 then
    ((ones_indices solution_state_4).map Gate.x) ++
      [Gate.h (n * n - 1), Gate.mcx (List.range (n * n - 1)) (n * n - 1), Gate.h (n * n - 1)] ++
      ((ones_indices solution_state_4).map Gate.x)
  else []

/-- `NQueensQuantumSolver.create_diffuser` (lines 232-244). -/
def create_diffuser (n : Nat) : List Gate :=
  ((List.range (n * n)).map Gate.h) ++ ((List.range (n * n)).map Gate.x) ++
    [Gate.h (n * n - 1), Gate.mcx (List.range (n * n - 1)) (n * n - 1), Gate.h (n * n - 1)] ++
    ((List.range (n * n)).map Gate.x) ++ ((List.range (n * n)).map Gate.h)

/-- The Grover circuit assembled by `solve` with the default simplified
oracle (lines 266-277): an initial H layer, then `1` iteration of
oracle-then-diffuser for `n ≤ 4` and `2` iterations otherwise
(`measure_all` only adds measurements, not gates). -/
def grover_gates (n : Nat) : List Gate :=
  ((List.range (n * n)).map Gate.h) ++
    (List.replicate (if n ≤ 4 then 1 else 2)
      (create_simplified_oracle n ++ create_diffuser n)).flatten

/-- The board sizes the UI offers (app_enhanced_real_time.py line 1796:
`st.sidebar.selectbox("... Board Size (N)", [4, 5, 6], index=0)`). -/
def board_size_options : List Nat := [4, 5, 6]

/-! ### Spec-side encoding for the round-trip claim -/

/-- Modelled from the spec: the repository decodes bitstrings but never
encodes coordinates, so the encoder of the round-trip property
("a '1' at index row*N+col for each queen, in a flat length-N² string")
is taken from the spec's words. -/
def encode_coords (coords : List (Nat × Nat)) (n : Nat) : List Char :=
  (List.range (n * n)).map fun i =>
    if coords.any fun q => decide (q.1 * n + q.2 = i) then '1' else '0'

/-! ## Theorems -/

lemma queensConflict_iff {p q : Nat × Nat} : queensConflict p q = true ↔ attacks p q := by
  simp [queensConflict, attacks, or_assoc]

lemma queensConflict_eq_false {p q : Nat × Nat} :
    queensConflict p q = false ↔ ¬ attacks p q := by
  rw [← queensConflict_iff, Bool.not_eq_true]

lemma attacks_symm : Symmetric fun p q : Nat × Nat => ¬ attacks p q := by
  intro p q h hc
  apply h
  unfold attacks at hc ⊢
  omega

lemma mem_queenList {board : Nat → Nat → Nat} {n : Nat} {p : Nat × Nat} :
    p ∈ queenList board n ↔ p.1 < n ∧ p.2 < n ∧ board p.1 p.2 = 1 := by
  simp only [queenList, List.mem_flatMap, List.mem_filterMap, List.mem_range]
  constructor
  · rintro ⟨i, hi, j, hj, hif⟩
    split at hif
    · cases hif
      exact ⟨hi, hj, by assumption⟩
    · cases hif
  · rintro ⟨h1, h2, h3⟩
    exact ⟨p.1, h1, p.2, h2, by simp [h3]⟩

lemma mem_specOnes {board : Nat → Nat → Nat} {n : Nat} {p : Nat × Nat} :
    p ∈ specOnes board n ↔ p ∈ queenList board n := by
  simp [specOnes, mem_queenList, Finset.mem_filter, Finset.mem_product, and_assoc]

lemma queenList_nodup (board : Nat → Nat → Nat) (n : Nat) : (queenList board n).Nodup := by
  rw [queenList, List.nodup_flatMap]
  constructor
  · intro i _
    refine List.Nodup.filterMap ?_ (List.nodup_range n)
    intro a a' b hb hb'
    split at hb
    · split at hb'
      · cases hb; cases hb'; rfl
      · cases hb'
    · cases hb
  · refine (List.nodup_range n).pairwise_of_forall_ne ?_
    intro i _ j _ hij
    intro p hp hq
    simp only [Function.onFun, List.mem_filterMap, List.mem_range] at hp hq
    obtain ⟨a, _, ha⟩ := hp
    obtain ⟨a', _, ha'⟩ := hq
    apply hij
    split at ha
    · split at ha'
      · cases ha; cases ha'; rfl
      · cases ha'
    · cases ha

lemma queenList_length (board : Nat → Nat → Nat) (n : Nat) :
    (queenList board n).length = (specOnes board n).card := by
  rw [← List.toFinset_card_of_nodup (queenList_nodup board n)]
  congr 1
  ext p
  simp [List.mem_toFinset, mem_specOnes]

lemma pairwiseOk_iff {l : List (Nat × Nat)} :
    pairwiseOk l = true ↔ l.Pairwise fun p q => ¬ attacks p q := by
  induction l with
  | nil => simp [pairwiseOk]
  | cons p rest ih =>
    simp [pairwiseOk, List.pairwise_cons, ih, queensConflict_eq_false]

/-- Claim C2: `check_n_queens_validity(board, n)` returns true iff the
grid holds exactly `n` ones and no two distinct 1-cells share a row,
share a column, or have equal absolute row and column deltas. -/
theorem check_n_queens_validity_iff (board : Nat → Nat → Nat) (n : Nat) :
    check_n_queens_validity board n = true ↔
      ((specOnes board n).card = n ∧
        ∀ p ∈ specOnes board n, ∀ q ∈ specOnes board n, p ≠ q → ¬ attacks p q) := by
  unfold check_n_queens_validity
  by_cases hlen : (queenList board n).length = n
  · rw [if_neg (by simpa using hlen)]
    rw [pairwiseOk_iff]
    constructor
    · intro hpw
      refine ⟨by rw [← queenList_length]; exact hlen, ?_⟩
      intro p hp q hq hne
      exact hpw.forall attacks_symm (mem_specOnes.1 hp) (mem_specOnes.1 hq) hne
    · rintro ⟨-, h⟩
      refine (queenList_nodup board n).pairwise_of_forall_ne ?_
      intro p hp q hq hne
      exact h p (mem_specOnes.2 hp) q (mem_specOnes.2 hq) hne
  · rw [if_pos (by simpa using hlen)]
    simp only [Bool.false_eq_true, false_iff, not_and]
    intro hcard
    exact absurd (by rw [queenList_length]; exact hcard) hlen

lemma countP_eq_sum_getD (p : Char → Bool) (d : Char) :
    ∀ u : List Char,
      u.countP p = ∑ c ∈ Finset.range u.length, (if p (u.getD c d) = true then 1 else 0)
  | [] => by simp
  | a :: u => by
    rw [List.countP_cons, List.length_cons, Finset.sum_range_succ']
    simp only [List.getD_cons_succ, List.getD_cons_zero]
    rw [countP_eq_sum_getD p d u]

lemma grid_count (n : Nat) : ∀ (m : Nat) (s : List Char), s.length = m * n →
    s.countP (fun c => c == '1') = ∑ r ∈ Finset.range m, rowSum (boardOfBits s n) n r
  | 0, s, h => by
    have : s = [] := List.length_eq_zero.mp (by simpa using h)
    simp [this]
  | m + 1, s, h => by
    have hmn : m * n ≤ s.length := by rw [h]; ring_nf; omega
    set t := s.take (m * n) with ht
    set u := s.drop (m * n) with hu
    have htl : t.length = m * n := by rw [ht, List.length_take]; omega
    have hul : u.length = n := by rw [hu, List.length_drop, h]; ring_nf; omega
    have hs : s = t ++ u := (List.take_append_drop (m * n) s).symm
    rw [Finset.sum_range_succ]
    have hrow_lt : ∀ r < m, rowSum (boardOfBits s n) n r = rowSum (boardOfBits t n) n r := by
      intro r hr
      unfold rowSum boardOfBits
      refine Finset.sum_congr rfl fun c hc => ?_
      have hc' : c < n := Finset.mem_range.mp hc
      have hidx : r * n + c < t.length := by
        rw [htl]
        calc r * n + c < r * n + n := by omega
        _ = (r + 1) * n := by ring
        _ ≤ m * n := Nat.mul_le_mul_right n (by omega)
      rw [hs, List.getD_append _ _ _ _ hidx]
    have hrow_m : rowSum (boardOfBits s n) n m = ∑ c ∈ Finset.range n,
        (if (fun c => c == '1') (u.getD c '0') = true then 1 else 0) := by
      unfold rowSum boardOfBits
      refine Finset.sum_congr rfl fun c hc => ?_
      have : (m * n + c) - t.length = c := by omega
      rw [hs, List.getD_append_right _ _ _ _ (by omega), this]
      by_cases h1 : u.getD c '0' = '1' <;> simp [h1]
    have hcp : u.countP (fun c => c == '1') =
        ∑ c ∈ Finset.range n, (if (fun c => c == '1') (u.getD c '0') = true then 1 else 0) := by
      rw [countP_eq_sum_getD (fun c => c == '1') '0' u, hul]
    rw [hrow_m, ← hcp]
    rw [Finset.sum_congr rfl fun r hr => hrow_lt r (Finset.mem_range.mp hr)]
    rw [← grid_count n m t htl]
    rw [hs, List.countP_append]

/-- Claim C1 (code bug): the bitstring `"0100001000010010"` hard-coded in
`create_simplified_oracle` decodes to the queens (0,1), (1,2), (2,3),
(3,2) — column 2 is used twice and two diagonals are attacked — so both
`verify_solution` and `check_n_queens_validity` reject it.  The comment
next to it documents the known solution (0,1), (1,3), (2,0), (3,2),
which the checker does accept, so the hard-coded string contradicts the
code's own documentation. -/
theorem oracle_bitstring_not_a_solution :
    get_solution_coordinates solution_state_4 4 = [(0, 1), (1, 2), (2, 3), (3, 2)] ∧
    verify_solution solution_state_4 4 = false ∧
    check_n_queens_validity (boardOfBits solution_state_4 4) 4 = false ∧
    check_n_queens_validity (boardOfCoords documented_solution_4) 4 = true := by
  decide

/-- Claim C3, counterexample: the all-zeros board has zero '1' bits (so
its count differs from 4), yet `verify_solution` accepts it — refuting
the claim that every bitstring whose 1-count is not exactly N is
rejected. -/
theorem verify_solution_accepts_empty_board :
    (List.replicate 16 '0').countP (fun c => c == '1') ≠ 4 ∧
    verify_solution (List.replicate 16 '0') 4 = true := by
  decide

/-- Claim C3 as amended: `verify_solution` performs no queen-count
check.  A bitstring of length N² with MORE than N '1' bits is always
rejected (some row then holds two queens), but a bitstring with fewer
than N ones can be accepted: the all-zeros board returns true. -/
theorem verify_solution_no_count_check :
    (∀ (n : Nat) (s : List Char), s.length = n * n →
      n < s.countP (fun c => c == '1') → verify_solution s n = false) ∧
    verify_solution (List.replicate 16 '0') 4 = true := by
  constructor
  · intro n s hlen hcount
    have hA : ((List.range n).all fun r =>
        decide (rowSum (boardOfBits s n) n r ≤ 1)) = false := by
      by_contra hA
      rw [Bool.not_eq_false, List.all_eq_true] at hA
      have hle : ∑ r ∈ Finset.range n, rowSum (boardOfBits s n) n r ≤ n := by
        calc ∑ r ∈ Finset.range n, rowSum (boardOfBits s n) n r
            ≤ ∑ _r ∈ Finset.range n, 1 := by
              refine Finset.sum_le_sum fun r hr => ?_
              have := hA r (List.mem_range.mpr (Finset.mem_range.mp hr))
              simpa using this
          _ = n := by simp
      rw [← grid_count n n s hlen] at hle
      omega
    unfold verify_solution
    rw [hA]
    simp
  · decide

/-- Witness for the amended C3 theorem: a 2×2 board holding three
queens is rejected. -/
theorem verify_solution_no_count_check_witness :
    verify_solution ['1', '1', '1', '0'] 2 = false :=
  verify_solution_no_count_check.1 2 ['1', '1', '1', '0'] (by decide) (by decide)

set_option maxRecDepth 10000 in
lemma no_valid_board_2 :
    ∀ f : Fin 2 → Fin 2 → Bool, check_n_queens_validity (boardOfFin f) 2 = false := by
  decide

set_option maxHeartbeats 4000000 in
set_option maxRecDepth 100000 in
lemma no_valid_board_3 :
    ∀ f : Fin 3 → Fin 3 → Bool, check_n_queens_validity (boardOfFin f) 3 = false := by
  decide

/-- Claim C6: for N ∈ {2, 3}, every board carrying exactly N queens is
rejected by `check_n_queens_validity` (in fact every 2×2 and 3×3 board
whatsoever is rejected, since no non-attacking placement of the required
size exists). -/
theorem check_n_queens_validity_unsolvable_sizes :
    (∀ f : Fin 2 → Fin 2 → Bool, finBoardCount f = 2 →
      check_n_queens_validity (boardOfFin f) 2 = false) ∧
    (∀ f : Fin 3 → Fin 3 → Bool, finBoardCount f = 3 →
      check_n_queens_validity (boardOfFin f) 3 = false) :=
  ⟨fun f _ => no_valid_board_2 f, fun f _ => no_valid_board_3 f⟩

/-- Witness for C6: the board with queens on the whole first row of the
2×2 board has exactly 2 queens and is rejected. -/
theorem check_n_queens_validity_unsolvable_sizes_witness :
    check_n_queens_validity (boardOfFin fun i _ : Fin 2 => i = 0) 2 = false :=
  check_n_queens_validity_unsolvable_sizes.1 (fun i _ => i = 0) (by decide)

/-- Claim C7: the hard-coded known solutions of
`generate_intermediate_states` for N = 4, 5, 6 all satisfy
`check_n_queens_validity`, and removing any single queen from the
4-queens solution makes the checker fail (queen-count mismatch). -/
theorem known_solutions_valid :
    check_n_queens_validity (boardOfCoords sol4) 4 = true ∧
    check_n_queens_validity (boardOfCoords sol5) 5 = true ∧
    check_n_queens_validity (boardOfCoords sol6) 6 = true ∧
    ∀ p ∈ sol4, check_n_queens_validity (boardOfCoords (sol4.erase p)) 4 = false := by
  decide

lemma edgeConflict_iff {coloring : Nat → Option Int} {e : Nat × Nat} :
    edgeConflict coloring e = true ↔
      ∃ c1 c2 : Int, coloring e.1 = some c1 ∧ coloring e.2 = some c2 ∧ c1 = c2 ∧ 0 ≤ c1 := by
  unfold edgeConflict
  rcases h1 : coloring e.1 with _ | c1 <;> rcases h2 : coloring e.2 with _ | c2 <;> simp

/-- Claim C4. -/
theorem check_graph_coloring_validity_iff (graph : GraphData) (coloring : Nat → Option Int) :
    (check_graph_coloring_validity graph coloring = false ↔
      ∃ e ∈ graph.edges, ∃ c1 c2 : Int,
        coloring e.1 = some c1 ∧ coloring e.2 = some c2 ∧ c1 = c2 ∧ 0 ≤ c1) ∧
    (graph.edges = [] → check_graph_coloring_validity graph coloring = true) := by
  constructor
  · rw [← Bool.not_eq_true, check_graph_coloring_validity, List.all_eq_true]
    push_neg
    constructor
    · rintro ⟨e, he, hbad⟩
      refine ⟨e, he, ?_⟩
      rw [← edgeConflict_iff]
      simpa using hbad
    · rintro ⟨e, he, hconf⟩
      refine ⟨e, he, ?_⟩
      rw [← edgeConflict_iff] at hconf
      simp [hconf]
  · intro h
    rw [check_graph_coloring_validity, h]
    rfl

/-- Witness for C4: an edgeless graph passes for an everywhere-equal coloring. -/
theorem check_graph_coloring_validity_iff_witness :
    check_graph_coloring_validity ⟨"empty", 3, [], 1⟩ (fun _ => some 0) = true :=
  (check_graph_coloring_validity_iff ⟨"empty", 3, [], 1⟩ (fun _ => some 0)).2 rfl

/-- Claim C5 (code bug in the table data). -/
theorem find_valid_coloring_table_facts :
    (find_valid_coloring wheelW4.vertices wheelW4.edges 3 =
        some [(0, 0), (1, 1), (2, 2), (3, 1), (4, 2)] ∧
      check_graph_coloring_validity wheelW4
        (colorMapOf [(0, 0), (1, 1), (2, 2), (3, 1), (4, 2)]) = true ∧
      3 < wheelW4.chromatic) ∧
    (find_valid_coloring complexMixed.vertices complexMixed.edges 2 =
        some [(0, 0), (1, 1), (2, 0), (3, 1), (4, 0), (5, 1)] ∧
      check_graph_coloring_validity complexMixed
        (colorMapOf [(0, 0), (1, 1), (2, 0), (3, 1), (4, 0), (5, 1)]) = true ∧
      2 < complexMixed.chromatic) ∧
    (∀ g ∈ graphs, g ≠ wheelW4 → g ≠ complexMixed →
      ∀ K, K < g.chromatic → find_valid_coloring g.vertices g.edges K = none) ∧
    (∀ K, K < 3 → find_valid_coloring wheelW4.vertices wheelW4.edges K = none) ∧
    (∀ K, K < 2 → find_valid_coloring complexMixed.vertices complexMixed.edges K = none) ∧
    find_valid_coloring bipartiteK23.vertices bipartiteK23.edges 2 =
      some [(0, 0), (1, 0), (2, 1), (3, 1), (4, 1)] ∧
    check_graph_coloring_validity bipartiteK23
      (colorMapOf [(0, 0), (1, 0), (2, 1), (3, 1), (4, 1)]) = true := by
  refine ⟨⟨by decide, by decide, by decide⟩, ⟨by decide, by decide, by decide⟩,
    by decide, by decide, by decide, by decide, by decide⟩

/-- Claim C9. -/
theorem mock_sampler_fabricates_result (α : Type) (circuits : List α)
    (shots numQubits : Nat) (hs : 0 < shots) :
    mock_get_counts circuits shots = [(['0', '0', '0', '0'], shots)] ∧
    counts_of_quasi (quasi_dists (mock_get_counts circuits shots)) shots =
      [(['0'], (shots : Int))] ∧
    most_probable_of (counts_of_quasi (quasi_dists (mock_get_counts circuits shots)) shots)
      numQubits = ['0'] := by
  have hsne : ((shots : Nat) : ℚ) ≠ 0 := by
    exact_mod_cast Nat.pos_iff_ne_zero.mp hs
  have hq : quasi_dists (mock_get_counts circuits shots) = [(0, 1)] := by
    unfold quasi_dists mock_get_counts
    simp [int_of_binary, div_self hsne]
  have hc : counts_of_quasi (quasi_dists (mock_get_counts circuits shots)) shots =
      [(['0'], (shots : Int))] := by
    rw [hq]
    unfold counts_of_quasi py_int
    simp [Nat.toDigits]
    rfl
  refine ⟨rfl, hc, ?_⟩
  rw [hc]
  unfold most_probable_of
  simp [show (0 : Int) < (shots : Int) from by exact_mod_cast hs]

/-- Witness for C9. -/
theorem mock_sampler_fabricates_result_witness :
    most_probable_of
      (counts_of_quasi (quasi_dists (mock_get_counts ([] : List Unit) 1000)) 1000) 16 = ['0'] :=
  (mock_sampler_fabricates_result Unit [] 1000 16 (by decide)).2.2

/-- Claim C10. -/
theorem simplified_oracle_empty_for_non4 (n : Nat) (h : n ≠ 4) :
    create_simplified_oracle n = [] ∧
    grover_gates n =
      ((List.range (n * n)).map Gate.h) ++
        (List.replicate (if n ≤ 4 then 1 else 2) (create_diffuser n)).flatten ∧
    5 ∈ board_size_options ∧ 6 ∈ board_size_options := by
  have ho : create_simplified_oracle n = [] := by
    unfold create_simplified_oracle
    rw [if_neg h]
  refine ⟨ho, ?_, by decide, by decide⟩
  unfold grover_gates
  rw [ho, List.nil_append]

/-- Witness for C10. -/
theorem simplified_oracle_empty_for_non4_witness :
    create_simplified_oracle 5 = [] :=
  (simplified_oracle_empty_for_non4 5 (by decide)).1

lemma encode_coords_length (coords : List (Nat × Nat)) (n : Nat) :
    (encode_coords coords n).length = n * n := by
  simp [encode_coords]

lemma encode_coords_getD {coords : List (Nat × Nat)} {n i : Nat} (hi : i < n * n) :
    (encode_coords coords n).getD i '0' =
      if coords.any fun q => decide (q.1 * n + q.2 = i) then '1' else '0' := by
  unfold encode_coords
  rw [List.getD_eq_getElem?_getD, List.getElem?_map, List.getElem?_range hi]
  rfl

lemma flat_index_div_mod {n r c : Nat} (hn : 0 < n) (hc : c < n) :
    (r * n + c) / n = r ∧ (r * n + c) % n = c := by
  constructor
  · rw [Nat.add_comm, Nat.add_mul_div_right c r hn, Nat.div_eq_of_lt hc, Nat.zero_add]
  · rw [Nat.add_comm, Nat.add_mul_mod_self_right, Nat.mod_eq_of_lt hc]

/-- Claim C8. -/
theorem encode_decode_roundtrip (n : Nat) (hn : 0 < n) (coords : List (Nat × Nat))
    (hb : ∀ q ∈ coords, q.1 < n ∧ q.2 < n) (hnd : coords.Nodup) (p : Nat × Nat) :
    p ∈ get_solution_coordinates (encode_coords coords n) n ↔ p ∈ coords := by
  unfold get_solution_coordinates
  rw [encode_coords_length]
  simp only [List.mem_filterMap, List.mem_range]
  constructor
  · rintro ⟨i, hi, hif⟩
    rw [encode_coords_getD hi] at hif
    by_cases hany : (coords.any fun q => decide (q.1 * n + q.2 = i)) = true
    · rw [if_pos hany] at hif
      rw [if_pos rfl] at hif
      obtain ⟨q, hq, hqi⟩ := List.any_eq_true.mp hany
      have hqi' : q.1 * n + q.2 = i := of_decide_eq_true hqi
      obtain ⟨hq1, hq2⟩ := hb q hq
      obtain ⟨hdiv, hmod⟩ := flat_index_div_mod hn hq2 (r := q.1)
      cases hif
      rw [← hqi', hdiv, hmod]
      exact hq
    · rw [if_neg hany] at hif
      rw [if_neg (by decide)] at hif
      cases hif
  · intro hp
    obtain ⟨hp1, hp2⟩ := hb p hp
    refine ⟨p.1 * n + p.2, ?_, ?_⟩
    · calc p.1 * n + p.2 < p.1 * n + n := by omega
        _ = (p.1 + 1) * n := by ring
        _ ≤ n * n := Nat.mul_le_mul_right n (by omega)
    · have hi : p.1 * n + p.2 < n * n := by
        calc p.1 * n + p.2 < p.1 * n + n := by omega
          _ = (p.1 + 1) * n := by ring
          _ ≤ n * n := Nat.mul_le_mul_right n (by omega)
      rw [encode_coords_getD hi]
      rw [if_pos (List.any_eq_true.mpr ⟨p, hp, by simp⟩)]
      rw [if_pos rfl]
      obtain ⟨hdiv, hmod⟩ := flat_index_div_mod hn hp2 (r := p.1)
      rw [hdiv, hmod]

/-- Witness for C8. -/
theorem encode_decode_roundtrip_witness :
    (0, 2) ∈ get_solution_coordinates (encode_coords [(1, 0), (0, 2)] 4) 4 :=
  (encode_decode_roundtrip 4 (by decide) [(1, 0), (0, 2)] (by decide) (by decide) (0, 2)).mpr
    (by decide)

end QPS
